import Mathlib

set_option maxHeartbeats 1000000

/-
Verification development for the model-price repository.

The definitions below are a shallow embedding of
`src/backend/providers/aws_bedrock.py` (the AWSBedrockProvider
normalization pipeline), of the small orchestration layer in
`src/backend/services/fetcher.py`, and — where the repository ships only
callers of a module (the `PricingService` store and the
`ProviderRegistry.fetch_all` aggregator are not under `src/`) — of
spec-modelled stand-ins, each marked as such in its doc comment.

Modelling conventions:
  * Python strings are `List Char` (ASCII; the catalogs are ASCII JSON).
  * Python floats parsed from catalog price strings are `ℚ`; the code only
    passes prices through unchanged, so exact rationals are faithful.
  * Python dicts (insertion ordered) are association lists with
    replace-in-place update (`insertA`) and first-match lookup (`lookupA`).
  * `datetime.now()` is modelled as an explicit `now : Nat` parameter; the
    code stores it only into `last_updated` at record creation.
  * JSON keys read with `.get(k, default)` are total fields with the
    default folded in; keys read with `d[k]` (which raise `KeyError` when
    absent) are modelled as always-present structure fields.  The code
    takes the first value of the term dict and of its `priceDimensions`
    dict (`list(....values())[0]`); a term entry is modelled as the list of
    term values and `Term.firstPriceDimension` is that first dimension — a
    term whose `priceDimensions` dict is empty makes the source raise
    `IndexError` (aborting the whole fetch) and is outside this model, as
    licensed by the spec's "catalogs are assumed single-tier for
    on-demand".
-/

/-- Python `str.lower` restricted to ASCII letters (catalog data is ASCII). -/
def pyLower (c : Char) : Char :=
  if 'A' ≤ c && c ≤ 'Z' then Char.ofNat (c.toNat + 32) else c

/-- Lowercase a whole string, i.e. Python `s.lower()`. -/
def lowerL (s : List Char) : List Char := s.map pyLower

/-- Bool test that the second list starts with the first. -/
def hasPfx : List Char → List Char → Bool
  | [], _ => true
  | _ :: _, [] => false
  | a :: as, b :: bs => a == b && hasPfx as bs

/-- Python substring containment `sub in s` (on `containsB s sub`). -/
def containsB : List Char → List Char → Bool
  | [], sub => hasPfx sub []
  | c :: tl, sub => hasPfx sub (c :: tl) || containsB tl sub

/-- Bool test that `s` ends with `suf`. -/
def endsWithB (s suf : List Char) : Bool := hasPfx suf.reverse s.reverse

/-- Python regex `\s` over ASCII: space, tab, newline, carriage return,
form feed, vertical tab. -/
def isPyWs (c : Char) : Bool :=
  c = ' ' || c = '\t' || c = '\n' || c = '\r' || c = '\x0b' || c = '\x0c'

/-- Characters kept by the source's `re.sub(r"[^a-z0-9\s\-\.]", "", ·)`:
lowercase letters, digits, any whitespace, hyphen, dot. -/
def keepChar (c : Char) : Bool :=
  ('a' ≤ c && c ≤ 'z') || ('0' ≤ c && c ≤ '9') || isPyWs c || c = '-' || c = '.'

/-- Helper for `squashWs`: the flag records whether the previous character
was whitespace (so a whitespace run yields exactly one hyphen). -/
def squashWsAux : Bool → List Char → List Char
  | _, [] => []
  | prevWs, c :: cs =>
    if isPyWs c then
      (if prevWs then squashWsAux true cs else '-' :: squashWsAux true cs)
    else c :: squashWsAux false cs

/-- Python `re.sub(r"\s+", "-", s)`: each maximal whitespace run becomes a
single hyphen. -/
def squashWs (s : List Char) : List Char := squashWsAux false s

/-- Source `_normalize_model_id` (aws_bedrock.py lines 204-210): lowercase,
remove characters outside `[a-z0-9\s\-.]`, replace whitespace runs with
hyphens. -/
def normalize_model_id (name : List Char) : List Char :=
  squashWs ((name.map pyLower).filter keepChar)

/-- Pricing block of the canonical record; every field nullable, absence
meaning unknown (the `Pricing` pydantic model the provider populates). -/
structure Pricing where
  input : Option ℚ := none
  output : Option ℚ := none
  cached_input : Option ℚ := none
  cached_write : Option ℚ := none
deriving DecidableEq, Repr

/-- Batch-tier pricing block (the `BatchPricing` pydantic model). -/
structure BatchPricing where
  input : Option ℚ := none
  output : Option ℚ := none
deriving DecidableEq, Repr

/-- Canonical normalized record (the `ModelPricing` pydantic model, on the
fields the provider code reads or writes). -/
structure ModelPricing where
  id : List Char
  provider : List Char
  model_id : List Char
  model_name : List Char
  pricing : Pricing
  batch_pricing : Option BatchPricing
  capabilities : List (List Char)
  last_updated : Nat
deriving DecidableEq, Repr

/-- The `pricePerUnit` JSON object: its `"USD"` entry, parsed as a number,
when present. -/
structure PricePerUnit where
  usd : Option ℚ
deriving DecidableEq, Repr

/-- One price dimension: `pricePerUnit` (read with `[...]`, hence a
required field) and `description` (read with `.get(..., "")`). -/
structure PriceDim where
  pricePerUnit : PricePerUnit
  description : List Char
deriving DecidableEq, Repr

/-- One on-demand term value.  `firstPriceDimension` is the first value of
its `priceDimensions` dict, which the source selects with
`list(term["priceDimensions"].values())[0]`. -/
structure Term where
  firstPriceDimension : PriceDim
deriving DecidableEq, Repr

/-- A product of the AmazonBedrock catalog: its SKU key and the attributes
the source reads, `attrs.get("model", "")` and `attrs.get("usagetype", "")`. -/
structure BedrockProduct where
  sku : List Char
  model : List Char
  usagetype : List Char
deriving DecidableEq, Repr

/-- A product of the AmazonBedrockFoundationModels catalog: its SKU key,
`attrs.get("servicename", "")` and `attrs.get("usagetype", "")`. -/
structure FMProduct where
  sku : List Char
  servicename : List Char
  usagetype : List Char
deriving DecidableEq, Repr

/-- The AmazonBedrock catalog: `products` (dict iteration order) and the
`terms.OnDemand` table, each SKU mapping to the list of its term values
(dict value order; the source uses the first). -/
structure BedrockCatalog where
  products : List BedrockProduct
  terms : List (List Char × List Term)
deriving DecidableEq, Repr

/-- The AmazonBedrockFoundationModels catalog, shaped like `BedrockCatalog`
but with `servicename`-keyed products. -/
structure FMCatalog where
  products : List FMProduct
  terms : List (List Char × List Term)
deriving DecidableEq, Repr

/-- Association-list lookup, i.e. Python `d.get(k)` on an insertion-ordered
dict. -/
def lookupA {α : Type} : List (List Char × α) → List Char → Option α
  | [], _ => none
  | (k', v') :: tl, k => if k' = k then some v' else lookupA tl k

/-- Association-list update, i.e. Python `d[k] = v`: replace in place when
the key exists, append otherwise. -/
def insertA {α : Type} : List (List Char × α) → List Char → α → List (List Char × α)
  | [], k, v => [(k, v)]
  | (k', v') :: tl, k, v =>
    if k' = k then (k, v) :: tl else (k', v') :: insertA tl k v

/-- The in-progress `models` dict of `fetch`. -/
abbrev MS := List (List Char × ModelPricing)

def sGuardrail : List Char := "Guardrail".toList
def sCustomModel : List Char := "CustomModel".toList
def sProvisioned : List Char := "ProvisionedThroughput".toList
def sInputLower : List Char := "input".toList
def sOutputLower : List Char := "output".toList
def sBatchLower : List Char := "batch".toList
def sInputCap : List Char := "Input".toList
def sOutputCap : List Char := "Output".toList
def sResponse : List Char := "Response".toList
def sBatchCap : List Char := "Batch".toList
def sCacheReadU : List Char := "CacheRead".toList
def sCacheReadD : List Char := "Cache Read".toList
def sCacheWriteU : List Char := "CacheWrite".toList
def sCacheWriteD : List Char := "Cache Write".toList
def sEdition : List Char := "(Amazon Bedrock Edition)".toList
def sProvider : List Char := "aws_bedrock".toList
def sProviderColon : List Char := "aws_bedrock:".toList
def sText : List Char := "text".toList
def sVision : List Char := "vision".toList
def sAudio : List Char := "audio".toList
def sEmbedding : List Char := "embedding".toList
def sEmbed : List Char := "embed".toList
def sVl : List Char := "vl".toList
def sImage : List Char := "image".toList
def sStable : List Char := "stable".toList
def sSonic : List Char := "sonic".toList
def sVoxtral : List Char := "voxtral".toList
def sOk : List Char := "ok".toList

/-- Source line 80: `"input" in usage_type.lower() or "input" in description.lower()`. -/
def bedIsInput (u d : List Char) : Bool :=
  containsB (lowerL u) sInputLower || containsB (lowerL d) sInputLower

/-- Source line 81: `"output" in usage_type.lower() or "output" in description.lower()`. -/
def bedIsOutput (u d : List Char) : Bool :=
  containsB (lowerL u) sOutputLower || containsB (lowerL d) sOutputLower

/-- Source line 82: `"batch" in usage_type.lower() or "batch" in description.lower()`. -/
def bedIsBatch (u d : List Char) : Bool :=
  containsB (lowerL u) sBatchLower || containsB (lowerL d) sBatchLower

/-- Source line 146: `"Input" in usage_type` (case-sensitive). -/
def fmIsInput (u : List Char) : Bool := containsB u sInputCap

/-- Source line 147: `"Output" in usage_type or "Response" in description`. -/
def fmIsOutput (u d : List Char) : Bool :=
  containsB u sOutputCap || containsB d sResponse

/-- Source line 148: `"batch" in usage_type.lower() or "Batch" in description`. -/
def fmIsBatch (u d : List Char) : Bool :=
  containsB (lowerL u) sBatchLower || containsB d sBatchCap

/-- Source line 149: `"CacheRead" in usage_type or "Cache Read" in description`. -/
def fmIsCacheRead (u d : List Char) : Bool :=
  containsB u sCacheReadU || containsB d sCacheReadD

/-- Source line 150: `"CacheWrite" in usage_type or "Cache Write" in description`. -/
def fmIsCacheWrite (u d : List Char) : Bool :=
  containsB u sCacheWriteU || containsB d sCacheWriteD

/-- Price-update block of `_parse_bedrock_data` (lines 102-114): every
assignment is a plain overwrite; a batch item always instantiates the
batch block. -/
def bedApplyPrice (u d : List Char) (p : ℚ) (m : ModelPricing) : ModelPricing :=
  if bedIsBatch u d then
    let bp := m.batch_pricing.getD {}
    if bedIsInput u d then { m with batch_pricing := some { bp with input := some p } }
    else if bedIsOutput u d then { m with batch_pricing := some { bp with output := some p } }
    else { m with batch_pricing := some bp }
  else
    if bedIsInput u d then { m with pricing := { m.pricing with input := some p } }
    else if bedIsOutput u d then { m with pricing := { m.pricing with output := some p } }
    else m

/-- Price-update block of `_parse_fm_data` (lines 185-202): batch first,
then cache read/write, then input and output, where input and output are
only written when still unset ("prefer standard over latency optimized"). -/
def fmApplyPrice (u d : List Char) (p : ℚ) (m : ModelPricing) : ModelPricing :=
  if fmIsBatch u d then
    let bp := m.batch_pricing.getD {}
    if fmIsInput u then { m with batch_pricing := some { bp with input := some p } }
    else if fmIsOutput u d then { m with batch_pricing := some { bp with output := some p } }
    else { m with batch_pricing := some bp }
  else if fmIsCacheRead u d then { m with pricing := { m.pricing with cached_input := some p } }
  else if fmIsCacheWrite u d then { m with pricing := { m.pricing with cached_write := some p } }
  else if fmIsInput u && !(fmIsCacheRead u d) && !(fmIsCacheWrite u d) then
    (if m.pricing.input = none then { m with pricing := { m.pricing with input := some p } } else m)
  else if fmIsOutput u d then
    (if m.pricing.output = none then { m with pricing := { m.pricing with output := some p } } else m)
  else m

/-- Fresh record created by `_parse_bedrock_data` (lines 89-98):
capabilities always `["text"]`. -/
def newBedModel (fid mid name : List Char) (now : Nat) : ModelPricing :=
  { id := fid, provider := sProvider, model_id := mid, model_name := name,
    pricing := {}, batch_pricing := none, capabilities := [sText],
    last_updated := now }

/-- Capability detection of `_parse_fm_data` (lines 162-169). -/
def hasVisionKw (name : List Char) : Bool :=
  containsB (lowerL name) sVision || containsB (lowerL name) sVl ||
    containsB (lowerL name) sImage || containsB (lowerL name) sStable

/-- Audio keyword check of `_parse_fm_data` (line 166). -/
def hasAudioKw (name : List Char) : Bool :=
  containsB (lowerL name) sAudio || containsB (lowerL name) sSonic ||
    containsB (lowerL name) sVoxtral

/-- Embedding keyword check of `_parse_fm_data` (line 168). -/
def hasEmbedKw (name : List Char) : Bool := containsB (lowerL name) sEmbed

/-- Capability list built at record creation in `_parse_fm_data`: start
from `["text"]`, append vision and audio on keyword matches, collapse to
`["embedding"]` when the lowercased name contains "embed". -/
def detectCapabilities (name : List Char) : List (List Char) :=
  if hasEmbedKw name then [sEmbedding]
  else
    (if hasVisionKw name then
      (if hasAudioKw name then [sText, sVision, sAudio] else [sText, sVision])
    else
      (if hasAudioKw name then [sText, sAudio] else [sText]))

/-- Fresh record created by `_parse_fm_data` (lines 171-180). -/
def newFmModel (fid mid name : List Char) (now : Nat) : ModelPricing :=
  { id := fid, provider := sProvider, model_id := mid, model_name := name,
    pricing := {}, batch_pricing := none,
    capabilities := detectCapabilities name, last_updated := now }

/-- Create-or-reuse plus price write of `_parse_bedrock_data` (lines
84-114): ensure a record exists for the derived id, then mutate it. -/
def bedrockUpdate (now : Nat) (ms : MS) (model_name usage_type desc : List Char)
    (price : ℚ) : MS :=
  let mid := normalize_model_id model_name
  let fid := sProviderColon ++ mid
  match lookupA ms fid with
  | some m => insertA ms fid (bedApplyPrice usage_type desc price m)
  | none => insertA ms fid (bedApplyPrice usage_type desc price (newBedModel fid mid model_name now))

/-- Create-or-reuse plus price write of `_parse_fm_data` (lines 156-202). -/
def fmUpdate (now : Nat) (ms : MS) (model_name usage_type desc : List Char)
    (price : ℚ) : MS :=
  let mid := normalize_model_id model_name
  let fid := sProviderColon ++ mid
  match lookupA ms fid with
  | some m => insertA ms fid (fmApplyPrice usage_type desc price m)
  | none => insertA ms fid (fmApplyPrice usage_type desc price (newFmModel fid mid model_name now))

/-- Drop trailing Python-`\s` whitespace. -/
def dropTrailingWs (s : List Char) : List Char :=
  (s.reverse.dropWhile isPyWs).reverse

/-- Source line 131: `re.sub(r"\s*\(Amazon Bedrock Edition\)\s*$", "", s)` —
remove a trailing "(Amazon Bedrock Edition)" together with surrounding
whitespace; leave the string unchanged when that suffix is absent. -/
def stripEdition (s : List Char) : List Char :=
  let t := dropTrailingWs s
  if endsWithB t sEdition then dropTrailingWs (t.take (t.length - sEdition.length))
  else s

/-- One loop iteration of `_parse_bedrock_data` (lines 58-114): skip items
without a model attribute, guardrail/custom-model items, and items whose
SKU has no (or an empty) on-demand term; otherwise extract the first price
dimension (USD price defaulting to 0, description defaulting to "") and
update the models dict. -/
def bedrockStep (terms : List (List Char × List Term)) (now : Nat)
    (ms : MS) (pr : BedrockProduct) : MS :=
  if pr.model = [] then ms
  else if containsB pr.usagetype sGuardrail || containsB pr.usagetype sCustomModel then ms
  else
    match lookupA terms pr.sku with
    | none => ms
    | some [] => ms
    | some (term :: _) =>
      bedrockUpdate now ms pr.model pr.usagetype term.firstPriceDimension.description
        (term.firstPriceDimension.pricePerUnit.usd.getD 0)

/-- One loop iteration of `_parse_fm_data` (lines 123-202): skip items
without a servicename, items whose SKU has no (or an empty) on-demand
term, and provisioned-throughput items; the model name is the servicename
with the "(Amazon Bedrock Edition)" suffix stripped.  The source performs
the ProvisionedThroughput skip (line 153) after extracting the price and
classification flags; those computations are pure, so hoisting the skip
above the term lookup leaves every result unchanged. -/
def fmStep (terms : List (List Char × List Term)) (now : Nat)
    (ms : MS) (pr : FMProduct) : MS :=
  if pr.servicename = [] then ms
  else if containsB pr.usagetype sProvisioned then ms
  else
    match lookupA terms pr.sku with
    | none => ms
    | some [] => ms
    | some (term :: _) =>
      fmUpdate now ms (stripEdition pr.servicename) pr.usagetype
        term.firstPriceDimension.description
        (term.firstPriceDimension.pricePerUnit.usd.getD 0)

/-- Source `_parse_bedrock_data` (lines 51-114) over the whole catalog. -/
def parse_bedrock_data (c : BedrockCatalog) (now : Nat) (ms : MS) : MS :=
  c.products.foldl (fun ms pr => bedrockStep c.terms now ms pr) ms

/-- Source `_parse_fm_data` (lines 116-202) over the whole catalog. -/
def parse_fm_data (c : FMCatalog) (now : Nat) (ms : MS) : MS :=
  c.products.foldl (fun ms pr => fmStep c.terms now ms pr) ms

/-- Source `fetch` (lines 27-49) after the two HTTP bodies are in hand:
parse the AmazonBedrock catalog, then the FoundationModels catalog, into
one shared models dict, and return `list(models.values())`. -/
def fetchModels (a : BedrockCatalog) (b : FMCatalog) (now : Nat) : List ModelPricing :=
  (parse_fm_data b now (parse_bedrock_data a now [])).map Prod.snd

/-- Classification outcomes named by the spec, plus `batchOther` for a
batch item that is neither input nor output (the code still instantiates
an empty batch block for it). -/
inductive PriceClass where
  | batchIn
  | batchOut
  | batchOther
  | cacheRead
  | cacheWrite
  | inputTok
  | outputTok
  | unclassified
deriving DecidableEq, Repr

/-- Spec-side classifier for the foundation-model catalog, written from
the spec's precedence (batch first, against both usage type and
description; then cache read/write; then input/output) over the source's
actual markers. -/
def fmClass (u d : List Char) : PriceClass :=
  if fmIsBatch u d then
    (if fmIsInput u then .batchIn
     else if fmIsOutput u d then .batchOut
     else .batchOther)
  else if fmIsCacheRead u d then .cacheRead
  else if fmIsCacheWrite u d then .cacheWrite
  else if fmIsInput u then .inputTok
  else if fmIsOutput u d then .outputTok
  else .unclassified

/-- Spec-side classifier for the general Bedrock catalog (no cache markers
exist there). -/
def bedClass (u d : List Char) : PriceClass :=
  if bedIsBatch u d then
    (if bedIsInput u d then .batchIn
     else if bedIsOutput u d then .batchOut
     else .batchOther)
  else if bedIsInput u d then .inputTok
  else if bedIsOutput u d then .outputTok
  else .unclassified

/-- Spec-side field writer for the foundation-model catalog: which field a
class writes and with which overwrite policy (input/output are
first-writer-wins, every other populated field is overwritten, an
unclassified item writes nothing). -/
def applyClassFM : PriceClass → ℚ → ModelPricing → ModelPricing
  | .batchIn, p, m =>
    let bp := m.batch_pricing.getD {}
    { m with batch_pricing := some { bp with input := some p } }
  | .batchOut, p, m =>
    let bp := m.batch_pricing.getD {}
    { m with batch_pricing := some { bp with output := some p } }
  | .batchOther, _, m => { m with batch_pricing := some (m.batch_pricing.getD {}) }
  | .cacheRead, p, m => { m with pricing := { m.pricing with cached_input := some p } }
  | .cacheWrite, p, m => { m with pricing := { m.pricing with cached_write := some p } }
  | .inputTok, p, m =>
    if m.pricing.input = none then { m with pricing := { m.pricing with input := some p } } else m
  | .outputTok, p, m =>
    if m.pricing.output = none then { m with pricing := { m.pricing with output := some p } } else m
  | .unclassified, _, m => m

/-- Spec-side field writer for the general Bedrock catalog: every write is
a plain overwrite; cache classes cannot occur there. -/
def applyClassBed : PriceClass → ℚ → ModelPricing → ModelPricing
  | .batchIn, p, m =>
    let bp := m.batch_pricing.getD {}
    { m with batch_pricing := some { bp with input := some p } }
  | .batchOut, p, m =>
    let bp := m.batch_pricing.getD {}
    { m with batch_pricing := some { bp with output := some p } }
  | .batchOther, _, m => { m with batch_pricing := some (m.batch_pricing.getD {}) }
  | .cacheRead, _, m => m
  | .cacheWrite, _, m => m
  | .inputTok, p, m => { m with pricing := { m.pricing with input := some p } }
  | .outputTok, p, m => { m with pricing := { m.pricing with output := some p } }
  | .unclassified, _, m => m

/-- Slug recipe written from the claim's words, in the claim's listed
order: case-fold, strip characters outside `[a-z0-9 .-]` (space, not all
whitespace), then replace whitespace runs with hyphens. -/
def slugSpecClaim (name : List Char) : List Char :=
  squashWs ((name.map pyLower).filter
    (fun c => ('a' ≤ c && c ≤ 'z') || ('0' ≤ c && c ≤ '9') || c = ' ' || c = '.' || c = '-'))

/-- Modelled from the spec: `PricingService.save_models` (the
`PricingService` module is not under `src/`); per the lifecycle contract a
refresh replaces the unified store wholesale with the freshly normalized
records. -/
def save_models (_store : List ModelPricing) (recs : List ModelPricing) : List ModelPricing :=
  recs

/-- Modelled from the spec: `PricingService.get_by_id` (the store's read
path is specified as a lookup by `id`, NotFound when absent). -/
def get_by_id (store : List ModelPricing) (i : List Char) : Option ModelPricing :=
  store.find? (fun r => decide (r.id = i))

/-- Outcome of one provider's `fetch()` as the orchestrator sees it:
either a normalized record list or a raised transport error. -/
inductive FetchResult where
  | success (records : List ModelPricing)
  | failure
deriving DecidableEq, Repr

/-- A registered provider together with the outcome its `fetch()` produces
in the cycle under consideration. -/
structure ProviderSpec where
  pname : List Char
  fetchResult : FetchResult
deriving DecidableEq, Repr

/-- Modelled from the spec: `ProviderRegistry.fetch_all` (the registry
module is not under `src/`); it runs every registered provider's fetch,
catches each provider's failure independently, and aggregates the
successful providers' records. -/
def fetch_all (ps : List ProviderSpec) : List ModelPricing :=
  match ps with
  | [] => []
  | p :: tl =>
    match p.fetchResult with
    | .success rs => rs ++ fetch_all tl
    | .failure => fetch_all tl

/-- Summary returned by `Fetcher.refresh_all` (fetcher.py lines 27-32). -/
structure RefreshSummary where
  status : List Char
  models_count : Nat
  elapsed_seconds : Nat
  timestamp : Nat
deriving DecidableEq, Repr

/-- Source `Fetcher.refresh_all` (fetcher.py lines 15-32) over the
spec-modelled registry and store: aggregate the providers' outcomes, save
the result wholesale, and return an ok summary; elapsed time and timestamp
are explicit parameters standing for the wall-clock reads. -/
def refresh_all (ps : List ProviderSpec) (store : List ModelPricing)
    (elapsed ts : Nat) : RefreshSummary × List ModelPricing :=
  let models := fetch_all ps
  ({ status := sOk, models_count := models.length,
     elapsed_seconds := elapsed, timestamp := ts },
   save_models store models)

/-- Erase the normalization timestamp of a record (for comparing two runs
of the same parse made at different wall-clock times). -/
def eraseTime (m : ModelPricing) : ModelPricing := { m with last_updated := 0 }

/-- Erase all timestamps in an in-progress models dict. -/
def eraseMap (ms : MS) : MS := ms.map (fun kv => (kv.1, eraseTime kv.2))

/-- Bool check that an optional price is absent or nonnegative. -/
def optNonneg (o : Option ℚ) : Bool :=
  match o with
  | none => true
  | some q => decide (0 ≤ q)

/-- Bool check that every populated numeric price field of a record is
nonnegative. -/
def recordNonneg (m : ModelPricing) : Bool :=
  optNonneg m.pricing.input && optNonneg m.pricing.output &&
    optNonneg m.pricing.cached_input && optNonneg m.pricing.cached_write &&
    (match m.batch_pricing with
     | none => true
     | some bp => optNonneg bp.input && optNonneg bp.output)

/-- Bool check that a price dimension's USD entry, when present, is
nonnegative. -/
def dimNonneg (d : PriceDim) : Bool := optNonneg d.pricePerUnit.usd

/-- Bool check that every term in an on-demand table has a nonnegative
first price dimension. -/
def termsNonneg (ts : List (List Char × List Term)) : Bool :=
  ts.all (fun e => e.2.all (fun t => dimNonneg t.firstPriceDimension))

theorem lookupA_insertA_self {α : Type} (ms : List (List Char × α)) (k : List Char) (v : α) :
    lookupA (insertA ms k v) k = some v := by
  induction ms with
  | nil => simp [insertA, lookupA]
  | cons hd tl ih =>
    by_cases h : hd.1 = k
    · simp [insertA, h, lookupA]
    · simp [insertA, h, lookupA, ih]

theorem lookupA_insertA_ne {α : Type} (ms : List (List Char × α)) (k k' : List Char) (v : α)
    (h : k' ≠ k) : lookupA (insertA ms k v) k' = lookupA ms k' := by
  have hkk : ¬(k = k') := fun hh => h hh.symm
  induction ms with
  | nil => simp only [insertA, lookupA, if_neg hkk]
  | cons hd tl ih =>
    by_cases hk : hd.1 = k
    · have hk' : ¬(hd.1 = k') := by rw [hk]; exact hkk
      simp only [insertA, if_pos hk, lookupA, if_neg hkk, if_neg hk']
    · by_cases hk' : hd.1 = k'
      · simp only [insertA, if_neg hk, lookupA, if_pos hk']
      · simp only [insertA, if_neg hk, lookupA, if_neg hk', ih]

theorem mem_insertA {α : Type} (ms : List (List Char × α)) (k : List Char) (v : α)
    (kv : List Char × α) (h : kv ∈ insertA ms k v) : kv = (k, v) ∨ kv ∈ ms := by
  induction ms with
  | nil => simpa [insertA] using h
  | cons hd tl ih =>
    by_cases hk : hd.1 = k
    · simp only [insertA, if_pos hk, List.mem_cons] at h
      rcases h with h | h
      · exact Or.inl h
      · exact Or.inr (List.mem_cons_of_mem _ h)
    · simp only [insertA, if_neg hk, List.mem_cons] at h
      rcases h with h | h
      · exact Or.inr (h ▸ List.mem_cons_self _ _)
      · rcases ih h with h' | h'
        · exact Or.inl h'
        · exact Or.inr (List.mem_cons_of_mem _ h')

theorem insertA_keys_some {α : Type} (ms : List (List Char × α)) (k : List Char) (v : α)
    (h : (lookupA ms k).isSome) : (insertA ms k v).map Prod.fst = ms.map Prod.fst := by
  induction ms with
  | nil => simp [lookupA] at h
  | cons hd tl ih =>
    by_cases hk : hd.1 = k
    · simp [insertA, hk, List.map_cons]
    · simp only [lookupA, if_neg hk] at h
      simp [insertA, hk, List.map_cons, ih h]

theorem insertA_keys_none {α : Type} (ms : List (List Char × α)) (k : List Char) (v : α)
    (h : lookupA ms k = none) : (insertA ms k v).map Prod.fst = ms.map Prod.fst ++ [k] := by
  induction ms with
  | nil => simp [insertA]
  | cons hd tl ih =>
    by_cases hk : hd.1 = k
    · simp [lookupA, hk] at h
    · simp only [lookupA, if_neg hk] at h
      simp [insertA, hk, List.map_cons, ih h]

theorem lookupA_none_not_mem {α : Type} (ms : List (List Char × α)) (k : List Char)
    (h : lookupA ms k = none) : k ∉ ms.map Prod.fst := by
  induction ms with
  | nil => simp
  | cons hd tl ih =>
    by_cases hk : hd.1 = k
    · simp [lookupA, hk] at h
    · rw [lookupA, if_neg hk] at h
      simp only [List.map_cons, List.mem_cons]
      rintro (hh | hh)
      · exact hk hh.symm
      · exact ih h hh

theorem foldlInv {β : Type} (P : MS → Prop) (f : MS → β → MS)
    (hf : ∀ ms x, P ms → P (f ms x)) :
    ∀ (l : List β) (ms : MS), P ms → P (l.foldl f ms) := by
  intro l
  induction l with
  | nil => intro ms h; simpa using h
  | cons hd tl ih => intro ms h; simpa using ih (f ms hd) (hf ms hd h)

theorem foldlComm {β : Type} (g : MS → MS) (f₁ f₂ : MS → β → MS)
    (hf : ∀ ms x, g (f₁ ms x) = f₂ (g ms) x) :
    ∀ (l : List β) (ms : MS), g (l.foldl f₁ ms) = l.foldl f₂ (g ms) := by
  intro l
  induction l with
  | nil => intro ms; simp
  | cons hd tl ih => intro ms; simp only [List.foldl_cons]; rw [ih, hf]

theorem bedApply_fields (u d : List Char) (p : ℚ) (m : ModelPricing) :
    (bedApplyPrice u d p m).id = m.id ∧ (bedApplyPrice u d p m).model_id = m.model_id ∧
    (bedApplyPrice u d p m).model_name = m.model_name ∧
    (bedApplyPrice u d p m).capabilities = m.capabilities ∧
    (bedApplyPrice u d p m).last_updated = m.last_updated := by
  unfold bedApplyPrice
  cases h1 : bedIsBatch u d <;> cases h2 : bedIsInput u d <;> cases h3 : bedIsOutput u d <;>
    simp

theorem fmApply_fields (u d : List Char) (p : ℚ) (m : ModelPricing) :
    (fmApplyPrice u d p m).id = m.id ∧ (fmApplyPrice u d p m).model_id = m.model_id ∧
    (fmApplyPrice u d p m).model_name = m.model_name ∧
    (fmApplyPrice u d p m).capabilities = m.capabilities ∧
    (fmApplyPrice u d p m).last_updated = m.last_updated := by
  unfold fmApplyPrice
  cases h1 : fmIsBatch u d <;> cases h2 : fmIsInput u <;> cases h3 : fmIsOutput u d <;>
    cases h4 : fmIsCacheRead u d <;> cases h5 : fmIsCacheWrite u d <;>
    simp <;> split <;> simp

theorem fmApply_input_preserved (u d : List Char) (p : ℚ) (m : ModelPricing) (q : ℚ)
    (h : m.pricing.input = some q) : (fmApplyPrice u d p m).pricing.input = some q := by
  unfold fmApplyPrice
  cases h1 : fmIsBatch u d <;> cases h2 : fmIsInput u <;> cases h3 : fmIsOutput u d <;>
    cases h4 : fmIsCacheRead u d <;> cases h5 : fmIsCacheWrite u d <;>
    simp [h] <;> split <;> simp [h]

theorem fmApply_output_preserved (u d : List Char) (p : ℚ) (m : ModelPricing) (q : ℚ)
    (h : m.pricing.output = some q) : (fmApplyPrice u d p m).pricing.output = some q := by
  unfold fmApplyPrice
  cases h1 : fmIsBatch u d <;> cases h2 : fmIsInput u <;> cases h3 : fmIsOutput u d <;>
    cases h4 : fmIsCacheRead u d <;> cases h5 : fmIsCacheWrite u d <;>
    simp [h] <;> split <;> simp [h]

theorem eraseTime_bedApply (u d : List Char) (p : ℚ) (m : ModelPricing) :
    eraseTime (bedApplyPrice u d p m) = bedApplyPrice u d p (eraseTime m) := by
  unfold bedApplyPrice eraseTime
  cases h1 : bedIsBatch u d <;> cases h2 : bedIsInput u d <;> cases h3 : bedIsOutput u d <;>
    simp

theorem eraseTime_fmApply (u d : List Char) (p : ℚ) (m : ModelPricing) :
    eraseTime (fmApplyPrice u d p m) = fmApplyPrice u d p (eraseTime m) := by
  unfold fmApplyPrice eraseTime
  cases h1 : fmIsBatch u d <;> cases h2 : fmIsInput u <;> cases h3 : fmIsOutput u d <;>
    cases h4 : fmIsCacheRead u d <;> cases h5 : fmIsCacheWrite u d <;>
    simp <;> split <;> simp

theorem eraseTime_newBed (fid mid name : List Char) (now : Nat) :
    eraseTime (newBedModel fid mid name now) = newBedModel fid mid name 0 := rfl

theorem eraseTime_newFm (fid mid name : List Char) (now : Nat) :
    eraseTime (newFmModel fid mid name now) = newFmModel fid mid name 0 := rfl

theorem lookupA_eraseMap (ms : MS) (k : List Char) :
    lookupA (eraseMap ms) k = (lookupA ms k).map eraseTime := by
  induction ms with
  | nil => simp [eraseMap, lookupA]
  | cons hd tl ih =>
    by_cases hk : hd.1 = k
    · simp [eraseMap, lookupA, hk]
    · simp only [eraseMap, List.map_cons, lookupA, if_neg hk]
      exact ih

theorem insertA_eraseMap (ms : MS) (k : List Char) (v : ModelPricing) :
    insertA (eraseMap ms) k (eraseTime v) = eraseMap (insertA ms k v) := by
  induction ms with
  | nil => simp [eraseMap, insertA]
  | cons hd tl ih =>
    by_cases hk : hd.1 = k
    · simp [eraseMap, insertA, hk]
    · simp only [eraseMap, List.map_cons, insertA, if_neg hk]
      simpa [eraseMap] using ih

theorem optNonneg_getD (o : Option ℚ) (h : optNonneg o = true) : 0 ≤ o.getD 0 := by
  cases o with
  | none => simp
  | some q => simpa [optNonneg] using h

theorem bedApply_nonneg (u d : List Char) (p : ℚ) (m : ModelPricing)
    (hp : 0 ≤ p) (hm : recordNonneg m = true) :
    recordNonneg (bedApplyPrice u d p m) = true := by
  unfold recordNonneg at hm ⊢
  unfold bedApplyPrice
  cases h1 : bedIsBatch u d <;> cases h2 : bedIsInput u d <;> cases h3 : bedIsOutput u d <;>
    cases hbp : m.batch_pricing <;>
    simp_all [optNonneg]

theorem fmApply_nonneg (u d : List Char) (p : ℚ) (m : ModelPricing)
    (hp : 0 ≤ p) (hm : recordNonneg m = true) :
    recordNonneg (fmApplyPrice u d p m) = true := by
  unfold fmApplyPrice
  cases h1 : fmIsBatch u d <;> cases h2 : fmIsInput u <;> cases h3 : fmIsOutput u d <;>
    cases h4 : fmIsCacheRead u d <;> cases h5 : fmIsCacheWrite u d <;>
    cases hbp : m.batch_pricing <;> cases hin : m.pricing.input <;>
    cases hout : m.pricing.output <;>
    simp_all [recordNonneg, optNonneg]

theorem newBed_nonneg (fid mid name : List Char) (now : Nat) :
    recordNonneg (newBedModel fid mid name now) = true := by
  simp [recordNonneg, newBedModel, optNonneg]

theorem newFm_nonneg (fid mid name : List Char) (now : Nat) :
    recordNonneg (newFmModel fid mid name now) = true := by
  simp [recordNonneg, newFmModel, optNonneg]

theorem lookupA_mem {α : Type} (ms : List (List Char × α)) (k : List Char) (v : α)
    (h : lookupA ms k = some v) : (k, v) ∈ ms := by
  induction ms with
  | nil => simp [lookupA] at h
  | cons hd tl ih =>
    by_cases hk : hd.1 = k
    · rw [lookupA, if_pos hk] at h
      injection h with h
      have : hd = (k, v) := by
        cases hd
        simp only [Prod.mk.injEq]
        exact ⟨hk, h⟩
      rw [← this]
      exact List.mem_cons_self _ _
    · rw [lookupA, if_neg hk] at h
      exact List.mem_cons_of_mem _ (ih h)

/-- Pointwise property of every key-value pair of a models dict. -/
def AllKV (P : List Char → ModelPricing → Prop) (ms : MS) : Prop :=
  ∀ kv ∈ ms, P kv.1 kv.2

theorem AllKV_insertA (P : List Char → ModelPricing → Prop) (ms : MS)
    (k : List Char) (v : ModelPricing) (hms : AllKV P ms) (hv : P k v) :
    AllKV P (insertA ms k v) := by
  intro kv hkv
  rcases mem_insertA ms k v kv hkv with h | h
  · rw [h]; exact hv
  · exact hms kv h

/-- The keys of the models dict are pairwise distinct. -/
def KeysNodup (ms : MS) : Prop := (ms.map Prod.fst).Nodup

theorem KeysNodup_insertA (ms : MS) (k : List Char) (v : ModelPricing)
    (h : KeysNodup ms) : KeysNodup (insertA ms k v) := by
  unfold KeysNodup
  cases hl : lookupA ms k with
  | some m =>
    rw [insertA_keys_some ms k v (by simp [hl])]
    exact h
  | none =>
    rw [insertA_keys_none ms k v hl]
    unfold KeysNodup at h
    simp [List.nodup_append, lookupA_none_not_mem ms k hl]
    exact h

/-- Capability detection never yields the empty list. -/
theorem detectCapabilities_ne_nil (name : List Char) : detectCapabilities name ≠ [] := by
  unfold detectCapabilities
  split
  · simp
  · split
    · split <;> simp
    · split <;> simp

theorem bedrockUpdate_idkey (now : Nat) (ms : MS) (mn u d : List Char) (p : ℚ)
    (h : AllKV (fun k v => v.id = k) ms) :
    AllKV (fun k v => v.id = k) (bedrockUpdate now ms mn u d p) := by
  simp only [bedrockUpdate]
  cases hl : lookupA ms (sProviderColon ++ normalize_model_id mn) with
  | some m =>
    apply AllKV_insertA _ _ _ _ h
    have hid := (bedApply_fields u d p m).1
    rw [hid]
    exact h _ (lookupA_mem _ _ _ hl)
  | none =>
    apply AllKV_insertA _ _ _ _ h
    have hid := (bedApply_fields u d p
      (newBedModel (sProviderColon ++ normalize_model_id mn) (normalize_model_id mn) mn now)).1
    rw [hid]
    rfl

theorem fmUpdate_idkey (now : Nat) (ms : MS) (mn u d : List Char) (p : ℚ)
    (h : AllKV (fun k v => v.id = k) ms) :
    AllKV (fun k v => v.id = k) (fmUpdate now ms mn u d p) := by
  simp only [fmUpdate]
  cases hl : lookupA ms (sProviderColon ++ normalize_model_id mn) with
  | some m =>
    apply AllKV_insertA _ _ _ _ h
    have hid := (fmApply_fields u d p m).1
    rw [hid]
    exact h _ (lookupA_mem _ _ _ hl)
  | none =>
    apply AllKV_insertA _ _ _ _ h
    have hid := (fmApply_fields u d p
      (newFmModel (sProviderColon ++ normalize_model_id mn) (normalize_model_id mn) mn now)).1
    rw [hid]
    rfl

theorem bedrockUpdate_keys (now : Nat) (ms : MS) (mn u d : List Char) (p : ℚ)
    (h : KeysNodup ms) : KeysNodup (bedrockUpdate now ms mn u d p) := by
  simp only [bedrockUpdate]
  cases hl : lookupA ms (sProviderColon ++ normalize_model_id mn) <;>
    exact KeysNodup_insertA _ _ _ h

theorem fmUpdate_keys (now : Nat) (ms : MS) (mn u d : List Char) (p : ℚ)
    (h : KeysNodup ms) : KeysNodup (fmUpdate now ms mn u d p) := by
  simp only [fmUpdate]
  cases hl : lookupA ms (sProviderColon ++ normalize_model_id mn) <;>
    exact KeysNodup_insertA _ _ _ h

theorem bedrockUpdate_capsne (now : Nat) (ms : MS) (mn u d : List Char) (p : ℚ)
    (h : AllKV (fun _ v => v.capabilities ≠ []) ms) :
    AllKV (fun _ v => v.capabilities ≠ []) (bedrockUpdate now ms mn u d p) := by
  simp only [bedrockUpdate]
  cases hl : lookupA ms (sProviderColon ++ normalize_model_id mn) with
  | some m =>
    apply AllKV_insertA _ _ _ _ h
    have hc := (bedApply_fields u d p m).2.2.2.1
    rw [hc]
    exact h _ (lookupA_mem _ _ _ hl)
  | none =>
    apply AllKV_insertA _ _ _ _ h
    have hc := (bedApply_fields u d p
      (newBedModel (sProviderColon ++ normalize_model_id mn) (normalize_model_id mn) mn now)).2.2.2.1
    rw [hc]
    simp [newBedModel]

theorem fmUpdate_capsne (now : Nat) (ms : MS) (mn u d : List Char) (p : ℚ)
    (h : AllKV (fun _ v => v.capabilities ≠ []) ms) :
    AllKV (fun _ v => v.capabilities ≠ []) (fmUpdate now ms mn u d p) := by
  simp only [fmUpdate]
  cases hl : lookupA ms (sProviderColon ++ normalize_model_id mn) with
  | some m =>
    apply AllKV_insertA _ _ _ _ h
    have hc := (fmApply_fields u d p m).2.2.2.1
    rw [hc]
    exact h _ (lookupA_mem _ _ _ hl)
  | none =>
    apply AllKV_insertA _ _ _ _ h
    have hc := (fmApply_fields u d p
      (newFmModel (sProviderColon ++ normalize_model_id mn) (normalize_model_id mn) mn now)).2.2.2.1
    rw [hc]
    exact detectCapabilities_ne_nil mn

theorem fmUpdate_capseq (now : Nat) (ms : MS) (mn u d : List Char) (p : ℚ)
    (h : AllKV (fun _ v => v.capabilities = detectCapabilities v.model_name) ms) :
    AllKV (fun _ v => v.capabilities = detectCapabilities v.model_name)
      (fmUpdate now ms mn u d p) := by
  simp only [fmUpdate]
  cases hl : lookupA ms (sProviderColon ++ normalize_model_id mn) with
  | some m =>
    apply AllKV_insertA _ _ _ _ h
    have hc := (fmApply_fields u d p m).2.2.2.1
    have hn := (fmApply_fields u d p m).2.2.1
    rw [hc, hn]
    exact h _ (lookupA_mem _ _ _ hl)
  | none =>
    apply AllKV_insertA _ _ _ _ h
    have hc := (fmApply_fields u d p
      (newFmModel (sProviderColon ++ normalize_model_id mn) (normalize_model_id mn) mn now)).2.2.2.1
    have hn := (fmApply_fields u d p
      (newFmModel (sProviderColon ++ normalize_model_id mn) (normalize_model_id mn) mn now)).2.2.1
    rw [hc, hn]
    rfl

theorem bedrockUpdate_nonneg (now : Nat) (ms : MS) (mn u d : List Char) (p : ℚ)
    (hp : 0 ≤ p) (h : AllKV (fun _ v => recordNonneg v = true) ms) :
    AllKV (fun _ v => recordNonneg v = true) (bedrockUpdate now ms mn u d p) := by
  simp only [bedrockUpdate]
  cases hl : lookupA ms (sProviderColon ++ normalize_model_id mn) with
  | some m =>
    apply AllKV_insertA _ _ _ _ h
    exact bedApply_nonneg u d p m hp (h _ (lookupA_mem _ _ _ hl))
  | none =>
    apply AllKV_insertA _ _ _ _ h
    exact bedApply_nonneg u d p _ hp (newBed_nonneg _ _ _ _)

theorem fmUpdate_nonneg (now : Nat) (ms : MS) (mn u d : List Char) (p : ℚ)
    (hp : 0 ≤ p) (h : AllKV (fun _ v => recordNonneg v = true) ms) :
    AllKV (fun _ v => recordNonneg v = true) (fmUpdate now ms mn u d p) := by
  simp only [fmUpdate]
  cases hl : lookupA ms (sProviderColon ++ normalize_model_id mn) with
  | some m =>
    apply AllKV_insertA _ _ _ _ h
    exact fmApply_nonneg u d p m hp (h _ (lookupA_mem _ _ _ hl))
  | none =>
    apply AllKV_insertA _ _ _ _ h
    exact fmApply_nonneg u d p _ hp (newFm_nonneg _ _ _ _)

theorem bedrockUpdate_comm (now : Nat) (ms : MS) (mn u d : List Char) (p : ℚ) :
    eraseMap (bedrockUpdate now ms mn u d p) = bedrockUpdate 0 (eraseMap ms) mn u d p := by
  simp only [bedrockUpdate]
  rw [lookupA_eraseMap]
  cases hl : lookupA ms (sProviderColon ++ normalize_model_id mn) with
  | some m =>
    simp only [Option.map_some']
    rw [← insertA_eraseMap, eraseTime_bedApply]
  | none =>
    simp only [Option.map_none']
    rw [← insertA_eraseMap, eraseTime_bedApply, eraseTime_newBed]

theorem fmUpdate_comm (now : Nat) (ms : MS) (mn u d : List Char) (p : ℚ) :
    eraseMap (fmUpdate now ms mn u d p) = fmUpdate 0 (eraseMap ms) mn u d p := by
  simp only [fmUpdate]
  rw [lookupA_eraseMap]
  cases hl : lookupA ms (sProviderColon ++ normalize_model_id mn) with
  | some m =>
    simp only [Option.map_some']
    rw [← insertA_eraseMap, eraseTime_fmApply]
  | none =>
    simp only [Option.map_none']
    rw [← insertA_eraseMap, eraseTime_fmApply, eraseTime_newFm]

/-- Invariant for the first-writer-wins proof: the record stored at `fid`
keeps every already-populated standard input/output price. -/
def LookPres (fid : List Char) (qin qout : Option ℚ) (ms : MS) : Prop :=
  ∃ m', lookupA ms fid = some m' ∧
    (∀ q, qin = some q → m'.pricing.input = some q) ∧
    (∀ q, qout = some q → m'.pricing.output = some q)

theorem fmUpdate_lookpres (now : Nat) (ms : MS) (mn u d : List Char) (p : ℚ)
    (fid : List Char) (qin qout : Option ℚ) (h : LookPres fid qin qout ms) :
    LookPres fid qin qout (fmUpdate now ms mn u d p) := by
  obtain ⟨m', hl, hin, hout⟩ := h
  simp only [fmUpdate]
  by_cases hf : (sProviderColon ++ normalize_model_id mn) = fid
  · rw [hf, hl]
    refine ⟨fmApplyPrice u d p m', lookupA_insertA_self _ _ _, ?_, ?_⟩
    · intro q hq
      exact fmApply_input_preserved u d p m' q (hin q hq)
    · intro q hq
      exact fmApply_output_preserved u d p m' q (hout q hq)
  · cases hlk : lookupA ms (sProviderColon ++ normalize_model_id mn) with
    | some m =>
      refine ⟨m', ?_, hin, hout⟩
      rw [lookupA_insertA_ne _ _ _ _ (fun hh => hf hh.symm)]
      exact hl
    | none =>
      refine ⟨m', ?_, hin, hout⟩
      rw [lookupA_insertA_ne _ _ _ _ (fun hh => hf hh.symm)]
      exact hl

theorem bedrockStep_cases (P : MS → Prop) (terms : List (List Char × List Term)) (now : Nat)
    (ms : MS) (pr : BedrockProduct) (h : P ms)
    (hupd : ∀ tm rest, lookupA terms pr.sku = some (tm :: rest) →
      P (bedrockUpdate now ms pr.model pr.usagetype tm.firstPriceDimension.description
          (tm.firstPriceDimension.pricePerUnit.usd.getD 0))) :
    P (bedrockStep terms now ms pr) := by
  unfold bedrockStep
  by_cases h1 : pr.model = []
  · rw [if_pos h1]; exact h
  · rw [if_neg h1]
    by_cases h2 : (containsB pr.usagetype sGuardrail || containsB pr.usagetype sCustomModel) = true
    · rw [if_pos h2]; exact h
    · rw [if_neg h2]
      cases hlt : lookupA terms pr.sku with
      | none => exact h
      | some l =>
        cases l with
        | nil => exact h
        | cons tm rest => exact hupd tm rest hlt

theorem fmStep_cases (P : MS → Prop) (terms : List (List Char × List Term)) (now : Nat)
    (ms : MS) (pr : FMProduct) (h : P ms)
    (hupd : ∀ tm rest, lookupA terms pr.sku = some (tm :: rest) →
      P (fmUpdate now ms (stripEdition pr.servicename) pr.usagetype
          tm.firstPriceDimension.description
          (tm.firstPriceDimension.pricePerUnit.usd.getD 0))) :
    P (fmStep terms now ms pr) := by
  unfold fmStep
  by_cases h1 : pr.servicename = []
  · rw [if_pos h1]; exact h
  · rw [if_neg h1]
    by_cases h2 : containsB pr.usagetype sProvisioned = true
    · rw [if_pos h2]; exact h
    · rw [if_neg h2]
      cases hlt : lookupA terms pr.sku with
      | none => exact h
      | some l =>
        cases l with
        | nil => exact h
        | cons tm rest => exact hupd tm rest hlt

theorem bedrockStep_comm (terms : List (List Char × List Term)) (now : Nat) (ms : MS)
    (pr : BedrockProduct) :
    eraseMap (bedrockStep terms now ms pr) = bedrockStep terms 0 (eraseMap ms) pr := by
  unfold bedrockStep
  by_cases h1 : pr.model = []
  · rw [if_pos h1, if_pos h1]
  · rw [if_neg h1, if_neg h1]
    by_cases h2 : (containsB pr.usagetype sGuardrail || containsB pr.usagetype sCustomModel) = true
    · rw [if_pos h2, if_pos h2]
    · rw [if_neg h2, if_neg h2]
      cases hlt : lookupA terms pr.sku with
      | none => rfl
      | some l =>
        cases l with
        | nil => rfl
        | cons tm rest => exact bedrockUpdate_comm now ms pr.model pr.usagetype _ _

theorem fmStep_comm (terms : List (List Char × List Term)) (now : Nat) (ms : MS)
    (pr : FMProduct) :
    eraseMap (fmStep terms now ms pr) = fmStep terms 0 (eraseMap ms) pr := by
  unfold fmStep
  by_cases h1 : pr.servicename = []
  · rw [if_pos h1, if_pos h1]
  · rw [if_neg h1, if_neg h1]
    by_cases h2 : containsB pr.usagetype sProvisioned = true
    · rw [if_pos h2, if_pos h2]
    · rw [if_neg h2, if_neg h2]
      cases hlt : lookupA terms pr.sku with
      | none => rfl
      | some l =>
        cases l with
        | nil => rfl
        | cons tm rest =>
          exact fmUpdate_comm now ms (stripEdition pr.servicename) pr.usagetype _ _

theorem parse_bedrock_comm (c : BedrockCatalog) (now : Nat) (ms : MS) :
    eraseMap (parse_bedrock_data c now ms) = parse_bedrock_data c 0 (eraseMap ms) := by
  unfold parse_bedrock_data
  exact foldlComm eraseMap _ _ (fun ms pr => bedrockStep_comm c.terms now ms pr) c.products ms

theorem parse_fm_comm (c : FMCatalog) (now : Nat) (ms : MS) :
    eraseMap (parse_fm_data c now ms) = parse_fm_data c 0 (eraseMap ms) := by
  unfold parse_fm_data
  exact foldlComm eraseMap _ _ (fun ms pr => fmStep_comm c.terms now ms pr) c.products ms

theorem parse_bedrock_pres (P : MS → Prop) (c : BedrockCatalog) (now : Nat) (ms : MS)
    (hupd : ∀ (ms : MS) (mn u d : List Char) (p : ℚ), P ms → P (bedrockUpdate now ms mn u d p))
    (h : P ms) : P (parse_bedrock_data c now ms) := by
  unfold parse_bedrock_data
  apply foldlInv P _ _ c.products ms h
  intro ms pr hP
  exact bedrockStep_cases P c.terms now ms pr hP (fun tm rest _ => hupd ms _ _ _ _ hP)

theorem parse_fm_pres (P : MS → Prop) (c : FMCatalog) (now : Nat) (ms : MS)
    (hupd : ∀ (ms : MS) (mn u d : List Char) (p : ℚ), P ms → P (fmUpdate now ms mn u d p))
    (h : P ms) : P (parse_fm_data c now ms) := by
  unfold parse_fm_data
  apply foldlInv P _ _ c.products ms h
  intro ms pr hP
  exact fmStep_cases P c.terms now ms pr hP (fun tm rest _ => hupd ms _ _ _ _ hP)

theorem terms_price_nonneg (ts : List (List Char × List Term)) (h : termsNonneg ts = true)
    (sku : List Char) (tm : Term) (rest : List Term)
    (hl : lookupA ts sku = some (tm :: rest)) :
    0 ≤ tm.firstPriceDimension.pricePerUnit.usd.getD 0 := by
  have hmem := lookupA_mem ts sku _ hl
  rw [termsNonneg, List.all_eq_true] at h
  have h2 := h _ hmem
  rw [List.all_eq_true] at h2
  have h3 := h2 tm (List.mem_cons_self _ _)
  unfold dimNonneg at h3
  exact optNonneg_getD _ h3

theorem parse_bedrock_nonneg (c : BedrockCatalog) (now : Nat) (ms : MS)
    (ht : termsNonneg c.terms = true)
    (h : AllKV (fun _ v => recordNonneg v = true) ms) :
    AllKV (fun _ v => recordNonneg v = true) (parse_bedrock_data c now ms) := by
  unfold parse_bedrock_data
  apply foldlInv _ _ _ c.products ms h
  intro ms pr hP
  apply bedrockStep_cases _ c.terms now ms pr hP
  intro tm rest hlt
  exact bedrockUpdate_nonneg now ms _ _ _ _
    (terms_price_nonneg c.terms ht pr.sku tm rest hlt) hP

theorem parse_fm_nonneg (c : FMCatalog) (now : Nat) (ms : MS)
    (ht : termsNonneg c.terms = true)
    (h : AllKV (fun _ v => recordNonneg v = true) ms) :
    AllKV (fun _ v => recordNonneg v = true) (parse_fm_data c now ms) := by
  unfold parse_fm_data
  apply foldlInv _ _ _ c.products ms h
  intro ms pr hP
  apply fmStep_cases _ c.terms now ms pr hP
  intro tm rest hlt
  exact fmUpdate_nonneg now ms _ _ _ _
    (terms_price_nonneg c.terms ht pr.sku tm rest hlt) hP

theorem map_snd_ids (ms : MS) (h : AllKV (fun k v => v.id = k) ms) :
    (ms.map Prod.snd).map (fun r => r.id) = ms.map Prod.fst := by
  induction ms with
  | nil => rfl
  | cons hd tl ih =>
    simp only [List.map_cons]
    rw [h hd (List.mem_cons_self _ _)]
    congr 1
    apply ih
    intro kv hkv
    exact h kv (List.mem_cons_of_mem _ hkv)

theorem mem_map_snd (ms : MS) (r : ModelPricing) (h : r ∈ ms.map Prod.snd) :
    ∃ k, (k, r) ∈ ms := by
  rcases List.mem_map.mp h with ⟨kv, hkv, hr⟩
  refine ⟨kv.1, ?_⟩
  rw [← hr]
  simpa using hkv

theorem eraseMap_snd (ms : MS) :
    (eraseMap ms).map Prod.snd = (ms.map Prod.snd).map eraseTime := by
  unfold eraseMap
  rw [List.map_map, List.map_map]
  rfl

theorem mem_fetch_all (ps : List ProviderSpec) (p : ProviderSpec) (rs : List ModelPricing)
    (r : ModelPricing) (hp : p ∈ ps) (hrs : p.fetchResult = .success rs) (hr : r ∈ rs) :
    r ∈ fetch_all ps := by
  induction ps with
  | nil => cases hp
  | cons hd tl ih =>
    rcases List.mem_cons.mp hp with h | h
    · subst h
      unfold fetch_all
      rw [hrs]
      exact List.mem_append_left _ hr
    · unfold fetch_all
      cases hfr : hd.fetchResult with
      | success rs' => exact List.mem_append_right _ (ih h)
      | failure => exact ih h

theorem find_isSome_of_mem (store : List ModelPricing) (r : ModelPricing)
    (hr : r ∈ store) : (get_by_id store r.id).isSome = true := by
  unfold get_by_id
  induction store with
  | nil => cases hr
  | cons hd tl ih =>
    rcases List.mem_cons.mp hr with h | h
    · subst h
      rw [List.find?_cons_of_pos _ (by simp)]
      rfl
    · by_cases hh : hd.id = r.id
      · rw [List.find?_cons_of_pos _ (by simp [hh])]
        rfl
      · rw [List.find?_cons_of_neg _ (by simp [hh])]
        exact ih h

theorem detect_embed (n : List Char) (h : hasEmbedKw n = true) :
    detectCapabilities n = [sEmbedding] := by
  unfold detectCapabilities
  rw [if_pos h]

theorem detect_default (n : List Char) (h1 : hasEmbedKw n = false)
    (h2 : hasVisionKw n = false) (h3 : hasAudioKw n = false) :
    detectCapabilities n = [sText] := by
  unfold detectCapabilities
  simp [h1, h2, h3]

/-- Characters allowed in a finished slug: lowercase letters, digits,
hyphen, dot. -/
def isSlugChar (c : Char) : Bool :=
  ('a' ≤ c && c ≤ 'z') || ('0' ≤ c && c ≤ '9') || c = '-' || c = '.'

theorem keep_not_ws (c : Char) (h1 : keepChar c = true) (h2 : isPyWs c = false) :
    isSlugChar c = true := by
  unfold keepChar at h1
  unfold isSlugChar
  rw [h2] at h1
  simpa using h1

theorem squashWsAux_all (l : List Char) (h : l.all keepChar = true) :
    ∀ b, (squashWsAux b l).all isSlugChar = true := by
  induction l with
  | nil => intro b; rfl
  | cons c cs ih =>
    intro b
    rw [List.all_cons, Bool.and_eq_true] at h
    unfold squashWsAux
    by_cases hc : isPyWs c = true
    · rw [if_pos hc]
      cases b
      · rw [if_neg (by simp)]
        rw [List.all_cons]
        simp only [Bool.and_eq_true]
        exact ⟨by rfl, ih h.2 true⟩
      · rw [if_pos rfl]
        exact ih h.2 true
    · rw [if_neg hc]
      rw [List.all_cons]
      simp only [Bool.and_eq_true]
      refine ⟨keep_not_ws c h.1 (by simpa using hc), ih h.2 false⟩

/-- Slug recipe as amended: the claim's recipe with the strip step keeping
all whitespace (the source strips with `[^a-z0-9\s\-.]`, so tabs and
newlines also survive to become hyphen separators). -/
def slugSpecAmended (name : List Char) : List Char :=
  squashWs ((name.map pyLower).filter
    (fun c => ('a' ≤ c && c ≤ 'z') || ('0' ≤ c && c ≤ '9') || isPyWs c || c = '-' || c = '.'))

/-- An empty FoundationModels catalog, for examples exercising only the
general Bedrock catalog. -/
def emptyFMCatalog : FMCatalog := { products := [], terms := [] }

/-- Catalog with two line-items that both classify as standard input for
the same model, with different prices (1 first, 2 second). -/
def c1Catalog : BedrockCatalog :=
  { products := [{ sku := "s1".toList, model := "M".toList, usagetype := "Input-A".toList },
                 { sku := "s2".toList, model := "M".toList, usagetype := "Input-B".toList }],
    terms := [("s1".toList,
      [{ firstPriceDimension := { pricePerUnit := { usd := some 1 }, description := [] } }]),
      ("s2".toList,
      [{ firstPriceDimension := { pricePerUnit := { usd := some 2 }, description := [] } }])] }

/-- Minimal one-item catalog (used to compare two runs of the fetch made
at different clock readings). -/
def c2Catalog : BedrockCatalog :=
  { products := [{ sku := "s1".toList, model := "M".toList, usagetype := "Input-A".toList }],
    terms := [("s1".toList,
      [{ firstPriceDimension := { pricePerUnit := { usd := some 1 }, description := [] } }])] }

/-- Catalog whose single line-item matches no input/output/batch marker in
either usage type or description, even case-insensitively. -/
def c3Catalog : BedrockCatalog :=
  { products := [{ sku := "s1".toList, model := "Foo Model".toList,
                   usagetype := "USE1-Hours".toList }],
    terms := [("s1".toList,
      [{ firstPriceDimension := { pricePerUnit := { usd := some 5 },
                                  description := "model units".toList } }])] }

/-- Catalog A of the end-to-end example: SKU s1, usage type
"USE1-Input-Bytes", raw model label "Claude Model", price 0.003. -/
def c4CatalogA : BedrockCatalog :=
  { products := [{ sku := "s1".toList, model := "Claude Model".toList,
                   usagetype := "USE1-Input-Bytes".toList }],
    terms := [("s1".toList,
      [{ firstPriceDimension := { pricePerUnit := { usd := some (3/1000) },
                                  description := [] } }])] }

/-- Catalog B of the end-to-end example: SKU s2, service name
"Claude Model (Amazon Bedrock Edition)", usage type "Output", price
0.015. -/
def c4CatalogB : FMCatalog :=
  { products := [{ sku := "s2".toList,
                   servicename := "Claude Model (Amazon Bedrock Edition)".toList,
                   usagetype := "Output".toList }],
    terms := [("s2".toList,
      [{ firstPriceDimension := { pricePerUnit := { usd := some (15/1000) },
                                  description := [] } }])] }

/-- A name with a tab: the claim's strip step (space only) deletes the
tab, the source's strip step (all whitespace) keeps it for hyphenation. -/
def c5TabName : List Char := "a\tb".toList

/-- Catalog whose single line-item belongs to an embedding-named model but
sits in the general Bedrock catalog, where capability detection never
runs. -/
def c7Catalog : BedrockCatalog :=
  { products := [{ sku := "s1".toList, model := "Embed Model".toList,
                   usagetype := "Input-Tokens".toList }],
    terms := [("s1".toList,
      [{ firstPriceDimension := { pricePerUnit := { usd := some 1 }, description := [] } }])] }

/-- FoundationModels catalog with one embedding-named model and one
signal-free model, for the capability witness. -/
def c7WitnessFM : FMCatalog :=
  { products := [{ sku := "s1".toList, servicename := "Titan Embed Text".toList,
                   usagetype := "Input-Tokens".toList },
                 { sku := "s2".toList, servicename := "Plain Model".toList,
                   usagetype := "Output-Tokens".toList }],
    terms := [("s1".toList,
      [{ firstPriceDimension := { pricePerUnit := { usd := some 1 }, description := [] } }]),
      ("s2".toList,
      [{ firstPriceDimension := { pricePerUnit := { usd := some 2 }, description := [] } }])] }

/-- Catalog carrying a negative USD price, which the parser copies into
the record unchecked. -/
def c8Catalog : BedrockCatalog :=
  { products := [{ sku := "s1".toList, model := "M".toList, usagetype := "Input-A".toList }],
    terms := [("s1".toList,
      [{ firstPriceDimension := { pricePerUnit := { usd := some (-1) }, description := [] } }])] }

/-- Record already present before the foundation-model parse runs, with
both standard prices populated (input 1, output 3). -/
def c1WitnessRecord : ModelPricing :=
  { id := "aws_bedrock:m".toList, provider := sProvider, model_id := "m".toList,
    model_name := "M".toList,
    pricing := { input := some 1, output := some 3, cached_input := none, cached_write := none },
    batch_pricing := none, capabilities := [sText], last_updated := 0 }

/-- Models dict holding just `c1WitnessRecord` under its id. -/
def c1WitnessMS : MS := [("aws_bedrock:m".toList, c1WitnessRecord)]

/-- FoundationModels catalog with a latency-optimized-style second input
line-item (price 2) for the model `c1WitnessRecord` describes. -/
def c1WitnessFM : FMCatalog :=
  { products := [{ sku := "s9".toList, servicename := "M".toList,
                   usagetype := "Input-Latency-Optimized".toList }],
    terms := [("s9".toList,
      [{ firstPriceDimension := { pricePerUnit := { usd := some 2 }, description := [] } }])] }

/-- A simple record for the orchestrator witness. -/
def c9Record : ModelPricing :=
  { id := "aws_bedrock:m".toList, provider := sProvider, model_id := "m".toList,
    model_name := "M".toList, pricing := {}, batch_pricing := none,
    capabilities := [sText], last_updated := 0 }

/-- Two registered providers: the first one succeeds with one record, the
second one raises a transport error. -/
def c9Providers : List ProviderSpec :=
  [{ pname := "aws_bedrock".toList, fetchResult := .success [c9Record] },
   { pname := "other".toList, fetchResult := .failure }]

/-- C4: with catalog A holding SKU s1 (usage type "USE1-Input-Bytes", raw
model label "Claude Model", price 0.003) and catalog B holding SKU s2
(service name "Claude Model (Amazon Bedrock Edition)", usage type
"Output", price 0.015), the fetch returns exactly one merged record with
id "aws_bedrock:claude-model", input price 0.003, output price 0.015 and
capabilities exactly ["text"]. -/
theorem c4_end_to_end :
    fetchModels c4CatalogA c4CatalogB 0 =
      [{ id := "aws_bedrock:claude-model".toList, provider := sProvider,
         model_id := "claude-model".toList, model_name := "Claude Model".toList,
         pricing := { input := some (3/1000), output := some (15/1000),
                      cached_input := none, cached_write := none },
         batch_pricing := none, capabilities := [sText], last_updated := 0 }] := by
  rfl

/-- C5 counterexample: on the name "a\tb" the source slug ("a-b") differs
from the claim's recipe (case-fold, strip to `[a-z0-9 .-]`, then hyphenate
whitespace runs), which deletes the tab and yields "ab". -/
theorem c5_counterexample : normalize_model_id c5TabName ≠ slugSpecClaim c5TabName := by
  decide

/-- C5 as amended: the slug function is the claim's recipe with the strip
step keeping all whitespace (not just the space character), so every
whitespace run becomes a hyphen; consequently the result contains only
characters from `[a-z0-9.-]`, and, being a pure function, the same input
always yields the same slug. -/
theorem c5_slug_amended (s : List Char) :
    normalize_model_id s = slugSpecAmended s ∧
    (normalize_model_id s).all isSlugChar = true := by
  constructor
  · rfl
  · unfold normalize_model_id squashWs
    apply squashWsAux_all
    rw [List.all_eq_true]
    intro c hc
    exact (List.mem_filter.mp hc).2

/-- C2 counterexample: two runs of the fetch over the same unchanged
catalog pair, made at wall-clock readings 0 and 1, are not byte-identical;
they differ in the `last_updated` field. -/
theorem c2_counterexample :
    fetchModels c2Catalog emptyFMCatalog 0 ≠ fetchModels c2Catalog emptyFMCatalog 1 := by
  intro h
  have h2 := congrArg (List.map (fun r => r.last_updated)) h
  have e0 : (fetchModels c2Catalog emptyFMCatalog 0).map (fun r => r.last_updated) = [0] := rfl
  have e1 : (fetchModels c2Catalog emptyFMCatalog 1).map (fun r => r.last_updated) = [1] := rfl
  rw [e0, e1] at h2
  exact absurd h2 (by decide)

/-- C2 as amended: normalization is deterministic up to the wall-clock
timestamp it stores: for every catalog pair, two runs made at any two
clock readings agree on every record and every field except
`last_updated` (and runs at the same reading are byte-identical). -/
theorem c2_determinism_up_to_timestamp (a : BedrockCatalog) (b : FMCatalog) (t1 t2 : Nat) :
    (fetchModels a b t1).map eraseTime = (fetchModels a b t2).map eraseTime := by
  have key : ∀ t : Nat, (fetchModels a b t).map eraseTime =
      (parse_fm_data b 0 (parse_bedrock_data a 0 [])).map Prod.snd := by
    intro t
    unfold fetchModels
    rw [← eraseMap_snd, parse_fm_comm, parse_bedrock_comm]
    rfl
  rw [key t1, key t2]

/-- C3 counterexample: the single line-item of `c3Catalog` matches no
input, output or batch marker (case-insensitively, in usage type and
description), yet the fetch still returns a record for its model — the
unmatched item creates an empty-priced record rather than being ignored. -/
theorem c3_counterexample :
    bedIsInput "USE1-Hours".toList "model units".toList = false ∧
    bedIsOutput "USE1-Hours".toList "model units".toList = false ∧
    bedIsBatch "USE1-Hours".toList "model units".toList = false ∧
    fetchModels c3Catalog emptyFMCatalog 0 ≠ [] := by
  refine ⟨by decide, by decide, by decide, ?_⟩
  intro h
  have h2 := congrArg List.length h
  rw [show (fetchModels c3Catalog emptyFMCatalog 0).length = 1 from rfl] at h2
  exact absurd h2 (by decide)

/-- C3 as amended: each line-item's price write follows the spec's
precedence (batch first, checked against both usage type and description;
then cache read and cache write; then input and output), but over the
source's actual markers — case-insensitive only in the general-catalog
parse, case-sensitive ("Input", "Output", "Response", "Batch",
"CacheRead"/"Cache Read", "CacheWrite"/"Cache Write") in the
foundation-model parse — and an item matching no marker writes no price
field although it may still create an empty-priced record for its model
(and a batch item with neither input nor output marker still instantiates
an empty batch block).  Formally, both price-update blocks equal the
spec-side classifier followed by the per-class field writer. -/
theorem c3_classification_amended (u d : List Char) (p : ℚ) (m : ModelPricing) :
    fmApplyPrice u d p m = applyClassFM (fmClass u d) p m ∧
    bedApplyPrice u d p m = applyClassBed (bedClass u d) p m := by
  constructor
  · unfold fmApplyPrice applyClassFM fmClass
    cases h1 : fmIsBatch u d <;> cases h2 : fmIsInput u <;> cases h3 : fmIsOutput u d <;>
      cases h4 : fmIsCacheRead u d <;> cases h5 : fmIsCacheWrite u d <;> simp
  · unfold bedApplyPrice applyClassBed bedClass
    cases h1 : bedIsBatch u d <;> cases h2 : bedIsInput u d <;> cases h3 : bedIsOutput u d <;>
      simp

/-- C1 counterexample: catalog A carries two line-items that both classify
as standard input for model "M" (prices 1 then 2); the final input price
is the second item's 2, not the first item's 1 — the general-catalog parse
overwrites instead of keeping the first writer. -/
theorem c1_counterexample :
    bedIsInput "Input-A".toList [] = true ∧ bedIsBatch "Input-A".toList [] = false ∧
    bedIsInput "Input-B".toList [] = true ∧ bedIsBatch "Input-B".toList [] = false ∧
    (fetchModels c1Catalog emptyFMCatalog 0).map (fun r => r.pricing.input) = [some 2] ∧
    some (2 : ℚ) ≠ some 1 := by
  refine ⟨by decide, by decide, by decide, by decide, by rfl, by decide⟩

/-- C1 as amended: first-writer-wins holds exactly for the standard input
and output fields during the foundation-model catalog parse — once a
record's `pricing.input` or `pricing.output` is populated, no later
foundation-model line-item changes it; every other populated field (all
fields of the general-catalog parse, and the cache and batch fields of the
foundation-model parse) takes the last writer's value. -/
theorem c1_fww_amended (b : FMCatalog) (now : Nat) (ms : MS) (fid : List Char)
    (m : ModelPricing) (hl : lookupA ms fid = some m) :
    ∃ m', lookupA (parse_fm_data b now ms) fid = some m' ∧
      (∀ q, m.pricing.input = some q → m'.pricing.input = some q) ∧
      (∀ q, m.pricing.output = some q → m'.pricing.output = some q) := by
  have key : LookPres fid m.pricing.input m.pricing.output (parse_fm_data b now ms) := by
    apply parse_fm_pres _ _ _ _
      (fun ms mn u d p hP => fmUpdate_lookpres now ms mn u d p fid _ _ hP)
    exact ⟨m, hl, fun q hq => hq, fun q hq => hq⟩
  exact key

/-- C1 witness: a store holding a record with input 1 and output 3, run
through a foundation-model catalog carrying another input line-item
(price 2) for the same model, still reports input 1 and output 3. -/
theorem c1_witness :
    ∃ m', lookupA (parse_fm_data c1WitnessFM 0 c1WitnessMS) ("aws_bedrock:m".toList) = some m' ∧
      (∀ q, c1WitnessRecord.pricing.input = some q → m'.pricing.input = some q) ∧
      (∀ q, c1WitnessRecord.pricing.output = some q → m'.pricing.output = some q) :=
  c1_fww_amended c1WitnessFM 0 c1WitnessMS ("aws_bedrock:m".toList) c1WitnessRecord (by rfl)

/-- C6: no two records returned by a fetch share an id (the models dict is
keyed by the very id stored in each record and its keys stay pairwise
distinct); the spec-modelled store write replaces the store wholesale; and
a dict write for an existing key replaces in place — it never adds a
second entry for that key. -/
theorem c6_unique_ids :
    (∀ (a : BedrockCatalog) (b : FMCatalog) (now : Nat),
      ((fetchModels a b now).map (fun r => r.id)).Nodup) ∧
    (∀ (store recs : List ModelPricing), save_models store recs = recs) ∧
    (∀ (ms : MS) (k : List Char) (v : ModelPricing),
      (insertA ms k v).map Prod.fst =
        if (lookupA ms k).isSome then ms.map Prod.fst else ms.map Prod.fst ++ [k]) := by
  refine ⟨?_, fun _ _ => rfl, ?_⟩
  · intro a b now
    have hwf : KeysNodup (parse_fm_data b now (parse_bedrock_data a now [])) ∧
        AllKV (fun k v => v.id = k) (parse_fm_data b now (parse_bedrock_data a now [])) := by
      apply parse_fm_pres (fun ms => KeysNodup ms ∧ AllKV (fun k v => v.id = k) ms)
      · intro ms mn u d p hP
        exact ⟨fmUpdate_keys now ms mn u d p hP.1, fmUpdate_idkey now ms mn u d p hP.2⟩
      · apply parse_bedrock_pres (fun ms => KeysNodup ms ∧ AllKV (fun k v => v.id = k) ms)
        · intro ms mn u d p hP
          exact ⟨bedrockUpdate_keys now ms mn u d p hP.1, bedrockUpdate_idkey now ms mn u d p hP.2⟩
        · exact ⟨List.nodup_nil, fun kv hkv => absurd hkv (List.not_mem_nil kv)⟩
    unfold fetchModels
    rw [map_snd_ids _ hwf.2]
    exact hwf.1
  · intro ms k v
    by_cases hl : (lookupA ms k).isSome
    · rw [if_pos hl, insertA_keys_some ms k v hl]
    · rw [if_neg hl]
      rw [insertA_keys_none ms k v (Option.not_isSome_iff_eq_none.mp hl)]

/-- C7 counterexample: a record created by the general-catalog parse for
the embedding-named model "Embed Model" keeps capabilities ["text"] — the
embedding collapse never runs in that parse, so an embedding-only model
can carry {text} instead of {embedding}. -/
theorem c7_counterexample :
    (fetchModels c7Catalog emptyFMCatalog 0).map
        (fun r => (hasEmbedKw r.model_name, r.capabilities)) = [(true, [sText])] ∧
    sText ≠ sEmbedding := by
  exact ⟨rfl, by decide⟩

/-- C7 as amended: every record produced by normalization has a non-empty
capabilities set; records created by the foundation-model-catalog parse
collapse to exactly ["embedding"] when the lowercased model name contains
"embed" and default to exactly ["text"] when no vision/audio/embedding
keyword matches; records created by the general-catalog parse always carry
exactly ["text"], even for embedding-named models. -/
theorem c7_capabilities_amended :
    (∀ (a : BedrockCatalog) (b : FMCatalog) (now : Nat) (r : ModelPricing),
      r ∈ fetchModels a b now → r.capabilities ≠ []) ∧
    (∀ (ts : List (List Char × List Term)) (b : FMCatalog) (now : Nat) (r : ModelPricing),
      r ∈ fetchModels { products := [], terms := ts } b now →
        (hasEmbedKw r.model_name = true → r.capabilities = [sEmbedding]) ∧
        (hasEmbedKw r.model_name = false → hasVisionKw r.model_name = false →
         hasAudioKw r.model_name = false → r.capabilities = [sText])) := by
  constructor
  · intro a b now r hr
    have hac : AllKV (fun _ v => v.capabilities ≠ [])
        (parse_fm_data b now (parse_bedrock_data a now [])) := by
      apply parse_fm_pres _ _ _ _ (fun ms mn u d p hP => fmUpdate_capsne now ms mn u d p hP)
      apply parse_bedrock_pres _ _ _ _ (fun ms mn u d p hP => bedrockUpdate_capsne now ms mn u d p hP)
      exact fun kv hkv => absurd hkv (List.not_mem_nil kv)
    unfold fetchModels at hr
    obtain ⟨k, hk⟩ := mem_map_snd _ r hr
    exact hac (k, r) hk
  · intro ts b now r hr
    have heq : AllKV (fun _ v => v.capabilities = detectCapabilities v.model_name)
        (parse_fm_data b now (parse_bedrock_data { products := [], terms := ts } now [])) := by
      apply parse_fm_pres _ _ _ _ (fun ms mn u d p hP => fmUpdate_capseq now ms mn u d p hP)
      exact fun kv hkv => absurd hkv (List.not_mem_nil kv)
    unfold fetchModels at hr
    obtain ⟨k, hk⟩ := mem_map_snd _ r hr
    have hre := heq (k, r) hk
    constructor
    · intro hemb
      rw [hre]
      exact detect_embed _ hemb
    · intro h1 h2 h3
      rw [hre]
      exact detect_default _ h1 h2 h3

/-- The embedding-capability record the foundation-model parse produces
for `c7WitnessFM`. -/
def c7WitnessRecord : ModelPricing :=
  { id := "aws_bedrock:titan-embed-text".toList, provider := sProvider,
    model_id := "titan-embed-text".toList, model_name := "Titan Embed Text".toList,
    pricing := { input := some 1, output := none, cached_input := none, cached_write := none },
    batch_pricing := none, capabilities := [sEmbedding], last_updated := 0 }

/-- C7 witness: the embedding-named record fetched from `c7WitnessFM` has
non-empty capabilities, and they collapse to exactly ["embedding"]. -/
theorem c7_witness :
    c7WitnessRecord.capabilities ≠ [] ∧
    ((hasEmbedKw c7WitnessRecord.model_name = true →
        c7WitnessRecord.capabilities = [sEmbedding]) ∧
     (hasEmbedKw c7WitnessRecord.model_name = false →
        hasVisionKw c7WitnessRecord.model_name = false →
        hasAudioKw c7WitnessRecord.model_name = false →
        c7WitnessRecord.capabilities = [sText])) :=
  ⟨c7_capabilities_amended.1 { products := [], terms := [] } c7WitnessFM 0 c7WitnessRecord
      (by decide),
   c7_capabilities_amended.2 [] c7WitnessFM 0 c7WitnessRecord (by decide)⟩

/-- C8 counterexample: a catalog line-item with USD price -1 flows into
the record unchecked — the populated input price is negative. -/
theorem c8_counterexample :
    (fetchModels c8Catalog emptyFMCatalog 0).map (fun r => r.pricing.input) = [some (-1)] ∧
    ¬((0 : ℚ) ≤ -1) := by
  exact ⟨rfl, by decide⟩

/-- C8 as amended: the parser never manufactures a negative price on its
own — whenever every USD value present in both catalogs is nonnegative
(the missing-USD default 0 included), every populated numeric price field
of every fetched record is ≥ 0. -/
theorem c8_nonneg_amended (a : BedrockCatalog) (b : FMCatalog) (now : Nat)
    (ha : termsNonneg a.terms = true) (hb : termsNonneg b.terms = true)
    (r : ModelPricing) (hr : r ∈ fetchModels a b now) :
    recordNonneg r = true := by
  have hac : AllKV (fun _ v => recordNonneg v = true)
      (parse_fm_data b now (parse_bedrock_data a now [])) := by
    apply parse_fm_nonneg b now _ hb
    apply parse_bedrock_nonneg a now _ ha
    exact fun kv hkv => absurd hkv (List.not_mem_nil kv)
  unfold fetchModels at hr
  obtain ⟨k, hk⟩ := mem_map_snd _ r hr
  exact hac (k, r) hk

/-- The record fetched from `c7Catalog` (price 1), reused as the
nonnegativity witness input. -/
def c8WitnessRecord : ModelPricing :=
  { id := "aws_bedrock:embed-model".toList, provider := sProvider,
    model_id := "embed-model".toList, model_name := "Embed Model".toList,
    pricing := { input := some 1, output := none, cached_input := none, cached_write := none },
    batch_pricing := none, capabilities := [sText], last_updated := 0 }

/-- C8 witness: with every catalog price nonnegative, the fetched record's
populated fields are all ≥ 0. -/
theorem c8_witness : recordNonneg c8WitnessRecord = true :=
  c8_nonneg_amended c7Catalog emptyFMCatalog 0 (by decide) (by decide) c8WitnessRecord
    (by decide)

/-- C9: for any set of registered providers, `refresh_all` completes with
an "ok" summary, and every record of every provider whose fetch succeeded
is committed to the store and queryable by id afterward — a sibling
provider's transport failure never discards them. -/
theorem c9_partial_failure_isolation (ps : List ProviderSpec) (store : List ModelPricing)
    (elapsed ts : Nat) (p : ProviderSpec) (rs : List ModelPricing) (r : ModelPricing)
    (hp : p ∈ ps) (hrs : p.fetchResult = .success rs) (hr : r ∈ rs) :
    (refresh_all ps store elapsed ts).1.status = sOk ∧
    r ∈ (refresh_all ps store elapsed ts).2 ∧
    (get_by_id (refresh_all ps store elapsed ts).2 r.id).isSome = true := by
  have hmem : r ∈ fetch_all ps := mem_fetch_all ps p rs r hp hrs hr
  exact ⟨rfl, hmem, find_isSome_of_mem _ r hmem⟩

/-- C9 witness: provider A succeeds with one record while provider B
raises a transport error; the refresh still reports ok and A's record is
committed and queryable. -/
theorem c9_witness :
    (refresh_all c9Providers [] 5 7).1.status = sOk ∧
    c9Record ∈ (refresh_all c9Providers [] 5 7).2 ∧
    (get_by_id (refresh_all c9Providers [] 5 7).2 c9Record.id).isSome = true :=
  c9_partial_failure_isolation c9Providers [] 5 7
    { pname := "aws_bedrock".toList, fetchResult := .success [c9Record] } [c9Record] c9Record
    (by decide) (by decide) (by decide)

/-- C10: a line-item whose price dimension carries no USD entry is parsed
with price 0.0 rather than treated as unknown, in both catalog parses: the
extracted price defaults to 0, and a price-0 line-item of any class
populates its classified field with `some 0` — batch input/output and, in
the foundation-model parse, cache read/write unconditionally, and standard
input/output with 0 when still unset (an already-populated field stays
populated, never reverting to null).  The last part runs the general
catalog end to end: any input-classified item without a USD entry yields a
record whose input price is exactly `some 0`, not `none`. -/
theorem c10_missing_usd_zero :
    (∀ tm : Term, tm.firstPriceDimension.pricePerUnit.usd = none →
      tm.firstPriceDimension.pricePerUnit.usd.getD 0 = 0) ∧
    (∀ (u d : List Char) (m : ModelPricing),
      (bedClass u d = PriceClass.inputTok → (bedApplyPrice u d 0 m).pricing.input = some 0) ∧
      (bedClass u d = PriceClass.outputTok → (bedApplyPrice u d 0 m).pricing.output = some 0) ∧
      (bedClass u d = PriceClass.batchIn →
        (bedApplyPrice u d 0 m).batch_pricing.map BatchPricing.input = some (some 0)) ∧
      (bedClass u d = PriceClass.batchOut →
        (bedApplyPrice u d 0 m).batch_pricing.map BatchPricing.output = some (some 0))) ∧
    (∀ (u d : List Char) (m : ModelPricing),
      (fmClass u d = PriceClass.cacheRead → (fmApplyPrice u d 0 m).pricing.cached_input = some 0) ∧
      (fmClass u d = PriceClass.cacheWrite → (fmApplyPrice u d 0 m).pricing.cached_write = some 0) ∧
      (fmClass u d = PriceClass.batchIn →
        (fmApplyPrice u d 0 m).batch_pricing.map BatchPricing.input = some (some 0)) ∧
      (fmClass u d = PriceClass.batchOut →
        (fmApplyPrice u d 0 m).batch_pricing.map BatchPricing.output = some (some 0)) ∧
      (fmClass u d = PriceClass.inputTok →
        (fmApplyPrice u d 0 m).pricing.input = some (m.pricing.input.getD 0)) ∧
      (fmClass u d = PriceClass.outputTok →
        (fmApplyPrice u d 0 m).pricing.output = some (m.pricing.output.getD 0))) ∧
    (∀ (sku name u d : List Char), ¬(name = []) →
      (containsB u sGuardrail || containsB u sCustomModel) = false →
      bedIsInput u d = true → bedIsBatch u d = false →
      (fetchModels
        { products := [{ sku := sku, model := name, usagetype := u }],
          terms := [(sku, [{ firstPriceDimension := { pricePerUnit := { usd := none },
                                                      description := d } }])] }
        emptyFMCatalog 0).map (fun r => r.pricing.input) = [some 0]) := by
  refine ⟨?_, ?_, ?_, ?_⟩
  · intro tm h
    rw [h]
    rfl
  · intro u d m
    unfold bedClass bedApplyPrice
    cases h1 : bedIsBatch u d <;> cases h2 : bedIsInput u d <;> cases h3 : bedIsOutput u d <;>
      simp_all
  · intro u d m
    unfold fmClass fmApplyPrice
    cases h1 : fmIsBatch u d <;> cases h2 : fmIsInput u <;> cases h3 : fmIsOutput u d <;>
      cases h4 : fmIsCacheRead u d <;> cases h5 : fmIsCacheWrite u d <;>
      cases hin : m.pricing.input <;> cases hout : m.pricing.output <;>
      simp_all
  · intro sku name u d hname hg hin hb
    have hg2 : containsB u sGuardrail = false ∧ containsB u sCustomModel = false := by
      simpa using hg
    simp [fetchModels, parse_fm_data, parse_bedrock_data, emptyFMCatalog, bedrockStep,
      bedrockUpdate, lookupA, insertA, bedApplyPrice, hname, hg2.1, hg2.2, hin, hb, newBedModel]

/-- C10 witness: concrete missing-USD line-items of every class — general
catalog input, output and batch-input; foundation-model cache-read,
cache-write, batch-output, fresh input and fresh output — all populate
their classified field with 0, the extraction of a USD-less dimension is
0, and the end-to-end single-item fetch reports input `some 0`. -/
theorem c10_witness :
    ((bedApplyPrice "Input-A".toList [] 0 c9Record).pricing.input = some 0) ∧
    ((bedApplyPrice "Output-Tokens".toList [] 0 c9Record).pricing.output = some 0) ∧
    ((bedApplyPrice "Batch-Input".toList [] 0 c9Record).batch_pricing.map
        BatchPricing.input = some (some 0)) ∧
    ((fmApplyPrice "CacheRead-x".toList [] 0 c9Record).pricing.cached_input = some 0) ∧
    ((fmApplyPrice "CacheWrite-x".toList [] 0 c9Record).pricing.cached_write = some 0) ∧
    ((fmApplyPrice "batch-Output".toList [] 0 c9Record).batch_pricing.map
        BatchPricing.output = some (some 0)) ∧
    ((fmApplyPrice "Input-Tokens".toList [] 0 c9Record).pricing.input =
        some (c9Record.pricing.input.getD 0)) ∧
    ((fmApplyPrice "Output-Tokens".toList [] 0 c9Record).pricing.output =
        some (c9Record.pricing.output.getD 0)) ∧
    (({ firstPriceDimension := { pricePerUnit := { usd := none }, description := [] } } :
        Term).firstPriceDimension.pricePerUnit.usd.getD 0 = 0) ∧
    ((fetchModels
      { products := [{ sku := "s1".toList, model := "M".toList,
                       usagetype := "Input-Tokens".toList }],
        terms := [("s1".toList,
          [{ firstPriceDimension := { pricePerUnit := { usd := none },
                                      description := [] } }])] }
      emptyFMCatalog 0).map (fun r => r.pricing.input) = [some 0]) :=
  ⟨(c10_missing_usd_zero.2.1 "Input-A".toList [] c9Record).1 (by decide),
   (c10_missing_usd_zero.2.1 "Output-Tokens".toList [] c9Record).2.1 (by decide),
   (c10_missing_usd_zero.2.1 "Batch-Input".toList [] c9Record).2.2.1 (by decide),
   (c10_missing_usd_zero.2.2.1 "CacheRead-x".toList [] c9Record).1 (by decide),
   (c10_missing_usd_zero.2.2.1 "CacheWrite-x".toList [] c9Record).2.1 (by decide),
   (c10_missing_usd_zero.2.2.1 "batch-Output".toList [] c9Record).2.2.2.1 (by decide),
   (c10_missing_usd_zero.2.2.1 "Input-Tokens".toList [] c9Record).2.2.2.2.1 (by decide),
   (c10_missing_usd_zero.2.2.1 "Output-Tokens".toList [] c9Record).2.2.2.2.2 (by decide),
   c10_missing_usd_zero.1 _ rfl,
   c10_missing_usd_zero.2.2.2 "s1".toList "M".toList "Input-Tokens".toList []
     (by decide) (by decide) (by decide) (by decide)⟩
